import Mathlib

/-!
Verification of the `tools/xtu-build-new` scripts (`xtu-build.py`,
`cc-bug-stats.py`) against their natural-language specification.

The Python code is shallowly embedded: Python `str` values are Lean `String`s
manipulated through helper functions that reproduce Python's `str` semantics
(`split`, `find`, `rfind`, `strip`, slicing, `os.path.join`, the `re` pattern
used by the scripts), the two dictionaries built by the compilation-database
load loop become insertion-ordered association lists (the scripts only ever
access them by key, never by iteration order, so this is a faithful
refinement), and process-level control flow (uncaught exceptions, `sys.exit`)
becomes explicit outcome values.  The two worker pools and the
`close`/`join` barrier between them are modelled as a labelled transition
system over submitted / running / finished task sets.
-/

/-! ### Python string primitives -/

/-- Whitespace set of Python 2 `str.split()` / `str.strip()`:
space, tab, newline, vertical tab, form feed, carriage return. -/
def pyIsSpace (c : Char) : Bool :=
  c == ' ' || c == '\t' || c == '\n' || c == '\x0b' || c == '\x0c' || c == '\r'

/-- `s.take p.length == p`: the list `s` starts with `p`. -/
def listStartsWith (s p : List Char) : Bool := s.take p.length == p

/-- The list `s` ends with `p`. -/
def listEndsWith (s p : List Char) : Bool := listStartsWith s.reverse p.reverse

/-- Python `s.endswith(p)`. -/
def pyEndsWith (s p : String) : Bool := listEndsWith s.data p.data

/-- Python `s.lower()` (ASCII case folding, as used on file suffixes). -/
def pyLower (s : String) : String := ⟨s.data.map Char.toLower⟩

/-- Python `c in l` for a single character. -/
def hasChar (l : List Char) (c : Char) : Bool := l.any (fun a => a == c)

/-- Python slicing `s[n:]` for a nonnegative start index. -/
def pyDrop (s : String) (n : Nat) : String := ⟨s.data.drop n⟩

/-- Python `needle in hay` (substring containment). -/
def strContains (hay needle : String) : Bool :=
  (List.range (hay.data.length + 1)).any
    (fun i => listStartsWith (hay.data.drop i) needle.data)

/-- Worker for `pySplit`: accumulates the current (reversed) token. -/
def splitWsAux : List Char → List Char → List String
  | [], acc => if acc.isEmpty then [] else [⟨acc.reverse⟩]
  | c :: rest, acc =>
    if pyIsSpace c then
      (if acc.isEmpty then splitWsAux rest []
       else (⟨acc.reverse⟩ : String) :: splitWsAux rest [])
    else splitWsAux rest (c :: acc)

/-- Python `s.split()`: split on runs of whitespace, no empty tokens. -/
def pySplit (s : String) : List String := splitWsAux s.data []

/-- Python `s.find(c)` for a single character: first index, `-1` if absent. -/
def findCharIdx : List Char → Char → Int
  | [], _ => -1
  | a :: t, c =>
    if a == c then 0
    else
      let r := findCharIdx t c
      if r ≥ 0 then r + 1 else -1

/-- Python `s.find(c)` on a string. -/
def pyFind (s : String) (c : Char) : Int := findCharIdx s.data c

/-- Python `s.rfind(c)` for a single character: last index, `-1` if absent. -/
def rfindCharIdx : List Char → Char → Int
  | [], _ => -1
  | a :: t, c =>
    let r := rfindCharIdx t c
    if r ≥ 0 then r + 1 else if a == c then 0 else -1

/-- Python `s.rfind(c)` on a string. -/
def pyRfind (s : String) (c : Char) : Int := rfindCharIdx s.data c

/-- Python `s.strip()`: remove leading and trailing whitespace. -/
def pyStrip (s : String) : String :=
  ⟨((s.data.dropWhile pyIsSpace).reverse.dropWhile pyIsSpace).reverse⟩

/-- `posixpath.join(a, b)`'s test `b.startswith('/')`. -/
def startsWithSlash (s : String) : Bool :=
  match s.data with
  | c :: _ => c == '/'
  | [] => false

/-- `posixpath.join(a, b)`'s test `a.endswith('/')`. -/
def endsWithSlash (s : String) : Bool :=
  match s.data.getLast? with
  | some c => c == '/'
  | none => false

/-- `os.path.join(a, b)` on POSIX: `b` if absolute, else `a` and `b`
joined with a `/` separator unless `a` is empty or already ends in `/`. -/
def pyJoin (a b : String) : String :=
  if startsWithSlash b then b
  else if a = "" then a ++ b
  else if endsWithSlash a then a ++ b
  else a ++ "/" ++ b

/-! ### The source-suffix pattern

`src_pattern = re.compile(".*\.(cc|c|cxx|cpp)$", re.IGNORECASE)`, used via
`src_pattern.match(s)`.  `.*` cannot cross a newline and `$` matches at the
end of the string or just before a single trailing newline, so the truthiness
of `match` is: after discarding one trailing newline (if any), the remainder
contains no newline and ends in `.` followed by one of the four suffixes,
case-insensitively. -/

def src_suffixes : List String := ["cc", "c", "cxx", "cpp"]

/-- Truthiness of `src_pattern.match(s)` from `xtu-build.py`. -/
def src_pattern_match (s : String) : Bool :=
  let t : String := if pyEndsWith s "\n" then ⟨s.data.dropLast⟩ else s
  (!(hasChar t.data '\n')) &&
    src_suffixes.any (fun ext => pyEndsWith (pyLower t) ("." ++ ext))

/-! ### CompilationDatabaseLoader (`xtu-build.py` lines 32-46) -/

/-- One record of the JSON compilation database. -/
structure CompileRecord where
  file : String
  command : String
deriving DecidableEq

/-- The four relations built by the load loop.  The two Python dicts are
insertion-ordered association lists; the scripts access them only by key. -/
structure LoadState where
  src_2_cmd : List (String × String)
  src_order : List String
  cmd_2_src : List (String × List String)
  cmd_order : List String
deriving DecidableEq

/-- `cmd_2_src[key].append(...)` on the association list. -/
def updateAssoc (m : List (String × List String)) (k : String)
    (f : List String → List String) : List (String × List String) :=
  m.map (fun p => if p.1 == k then (p.1, f p.2) else p)

/-- One iteration of the `for step in buildlog` load loop. -/
def processStep (st : LoadState) (step : CompileRecord) : LoadState :=
  if src_pattern_match step.file then
    let st1 :=
      if (st.src_2_cmd.lookup step.file).isSome then st
      else { st with
              src_2_cmd := st.src_2_cmd ++ [(step.file, step.command)],
              src_order := st.src_order ++ [step.file] }
    if (st1.cmd_2_src.lookup step.command).isSome then
      { st1 with
          cmd_2_src := updateAssoc st1.cmd_2_src step.command
            (fun l => l ++ [step.file]) }
    else
      { st1 with
          cmd_2_src := st1.cmd_2_src ++ [(step.command, [step.file])],
          cmd_order := st1.cmd_order ++ [step.command] }
  else st

/-- The whole load loop, from the empty relations. -/
def load (buildlog : List CompileRecord) : LoadState :=
  buildlog.foldl processStep ⟨[], [], [], []⟩

/-- The records the loader accepts: those whose `file` matches `src_pattern`. -/
def acceptedOf (buildlog : List CompileRecord) : List CompileRecord :=
  buildlog.filter (fun r => src_pattern_match r.file)

/-! ### CommandArgumentFilter (`get_command_arguments`, lines 54-62) -/

/-- One iteration of the loop in `get_command_arguments`.  The state is the
pair `(had_command, args)`; the `args` update reads the current
`had_command`, which is updated afterwards, exactly as in the source. -/
def gcaStep (st : Bool × List String) (arg : String) : Bool × List String :=
  let args := if st.1 && !(src_pattern_match arg) then st.2 ++ [arg] else st.2
  let had_command := if !st.1 && (pyFind arg '=' = -1) then true else st.1
  (had_command, args)

/-- `get_command_arguments(cmd)` from `xtu-build.py`. -/
def get_command_arguments (cmd : String) : List String :=
  ((pySplit cmd).foldl gcaStep (false, [])).2

/-- Stated from the spec's words, for comparison with the source function:
drop every token up to and including the first token containing no `=`. -/
def drop_through_first_plain : List String → List String
  | [] => []
  | t :: rest =>
    if hasChar t.data '=' then drop_through_first_plain rest else rest

/-- Stated from the spec's words (§4.2): drop tokens through the first one
without `=`, then drop every later token matching the source-file pattern,
keeping the rest in order. -/
def spec_command_arguments (cmd : String) : List String :=
  (drop_through_first_plain (pySplit cmd)).filter
    (fun t => !(src_pattern_match t))

/-! ### ArchitectureResolver and AstArtifactPath (`generate_ast`, lines 64-83) -/

/-- `arch_output[arch_output.rfind('@')+1:].strip()` from `generate_ast`. -/
def resolve_arch (arch_output : String) : String :=
  pyStrip ⟨arch_output.data.drop (pyRfind arch_output '@' + 1).toNat⟩

/-- The AST artifact path of `generate_ast` (line 72), as a function of the
output directory, the resolved architecture and `os.path.realpath(source)`:
`os.path.join(xtuindir, os.path.join("/ast/" + arch, realpath[1:] + ".ast")[1:])`. -/
def ast_path (xtuindir arch realpath_source : String) : String :=
  pyJoin xtuindir
    (pyDrop (pyJoin ("/ast/" ++ arch) (pyDrop realpath_source 1 ++ ".ast")) 1)

/-! ### OutputReset (`clear_file`, lines 48-52 and 93-95) -/

/-- The filesystem, as the set (list) of paths of existing files. -/
abbrev FileSystem := List String

/-- `os.remove`: fails with `OSError` (`none`) iff the file does not exist. -/
def os_remove (fs : FileSystem) (f : String) : Option FileSystem :=
  if f ∈ fs then some (fs.filter (fun g => !(g == f))) else none

/-- `clear_file`: `os.remove` with `OSError` swallowed. -/
def clear_file (fs : FileSystem) (f : String) : FileSystem :=
  match os_remove fs f with
  | some fs2 => fs2
  | none => fs

/-- The three `clear_file` calls before Phase 1. -/
def output_reset (xtuindir : String) (fs : FileSystem) : FileSystem :=
  clear_file
    (clear_file
      (clear_file fs (xtuindir ++ "/cfg.txt"))
      (xtuindir ++ "/definedFns.txt"))
    (xtuindir ++ "/externalFns.txt")

/-! ### The two pool-submission lists (lines 97-108)

Phase 1 submits `generate_ast(source)` for each `source in src_order`; each
task reads its command from `src_2_cmd[source]`.  Phase 2 submits
`map_functions(command)` for each `command in cmd_order`; each task reads its
source group from `cmd_2_src[command]`. -/

/-- Phase 1 work items: `(source, src_2_cmd[source])`. -/
def phase1_jobs (st : LoadState) : List (String × Option String) :=
  st.src_order.map (fun s => (s, st.src_2_cmd.lookup s))

/-- Phase 2 work items: `(command, cmd_2_src[command])`. -/
def phase2_jobs (st : LoadState) : List (String × Option (List String)) :=
  st.cmd_order.map (fun c => (c, st.cmd_2_src.lookup c))

/-! ### Process-level outcomes of the startup code (`xtu-build.py` lines 28-30)

`open` / `json.load` run with no exception handler, so a missing file
(`IOError`) or unparsable contents (`ValueError`) propagate and abort the
process.  The file contents are `none` when the file cannot be read, and the
JSON parser is an oracle returning `none` on unparsable input. -/

/-- Result of running a stretch of Python code at top level. -/
inductive PyOutcome (α : Type) where
  | ok (a : α)
  | uncaught (exc : String)
deriving DecidableEq

/-- The buildlog load: `open(...)` then `json.load(...)`, no handlers. -/
def load_buildlog (fileContents : Option String)
    (parseJson : String → Option (List CompileRecord)) :
    PyOutcome (List CompileRecord) :=
  match fileContents with
  | none => .uncaught "IOError"
  | some txt =>
    match parseJson txt with
    | none => .uncaught "ValueError"
    | some db => .ok db

/-! ### The excluded reporting tool (`cc-bug-stats.py`)

Only its abort/continue control flow is modelled.  `call_command` outputs and
`json.loads` are oracles supplied as arguments; run-name selection from the
parsed `runs` answer (lines 136-167) is abstracted as `select`. -/

/-- Lines 123-125: the connection-failure test on the raw `runs` output. -/
def connection_error (out : String) : Bool :=
  strContains out "Connection refused" ||
    strContains out "Name or service not known"

/-- How a run of `cc-bug-stats.py` ends (after the startup checks). -/
inductive StatsOutcome where
  | exited (code : Int)
  | completed
deriving DecidableEq

/-- The `for project in project_names` loop (lines 222-249).  For each
project, `resultsJson p` is the parsed `results` answer: `none` when
`json.loads` raises `ValueError` (the loop prints and `continue`s), otherwise
the list of `bugPathLength` fields, `none`-valued entries being records
missing the metric (the loop `sys.exit(2)`s). -/
def process_projects (resultsJson : String → Option (List (Option Nat))) :
    List String → StatsOutcome
  | [] => .completed
  | p :: rest =>
    match resultsJson p with
    | none => process_projects resultsJson rest
    | some bugPathLengths =>
      if bugPathLengths.any (fun bpl => bpl.isNone) then .exited 2
      else process_projects resultsJson rest

/-- The main flow of `cc-bug-stats.py` from the `runs` query on:
connection check, `json.loads` of the `runs` answer (`sys.exit(1)` on
`ValueError`), then the per-project loop. -/
def cc_bug_stats (runsOutput : String)
    (runsJson : String → Option (List String))
    (select : List String → List String)
    (resultsJson : String → Option (List (Option Nat))) : StatsOutcome :=
  if connection_error runsOutput then .exited 1
  else
    match runsJson runsOutput with
    | none => .exited 1
    | some existing_runs =>
      process_projects resultsJson (select existing_runs)

/-! ### The two-phase pool pipeline (lines 97-108)

`ast_workers` receives one `generate_ast` task per entry of `src_order`; the
pool is closed and joined — `join` returns only when every submitted task has
finished — and only then is `funcmap_workers` created and fed one
`map_functions` task per entry of `cmd_order`.  The labelled transition
system below models exactly this: Phase 1 tasks may start and finish in any
interleaving, the barrier transition (the driver's `close`/`join` returning
and the Phase 2 submissions) is enabled only when no Phase 1 task is pending
or running, and a Phase 2 task may start only after the barrier. -/

/-- The task lists the driver submits to the two pools. -/
structure Pipeline where
  srcs : List String
  cmds : List String

/-- Observable events of a pipeline run. -/
inductive Ev where
  | astStart (s : String)
  | astEnd (s : String)
  | barrier
  | fmStart (c : String)
  | fmEnd (c : String)
deriving DecidableEq

/-- Scheduler state: Phase 1 tasks pending / running, whether
`ast_workers.join()` has returned, Phase 2 tasks pending / running. -/
structure PState where
  p1_pending : List String
  p1_running : List String
  p1_done : List String
  joined1 : Bool
  p2_pending : List String
  p2_running : List String
  p2_done : List String
deriving DecidableEq

/-- Before anything runs: all Phase 1 tasks submitted, nothing else. -/
def initPState (pl : Pipeline) : PState :=
  ⟨pl.srcs, [], [], false, [], [], []⟩

/-- One scheduler step.  A `generate_ast` subprocess may start whenever its
task is pending and end whenever it is running; the barrier requires Phase 1
fully drained and releases the Phase 2 submissions; a `clang-func-mapping`
subprocess may start only once the barrier has passed. -/
inductive PoolStep (pl : Pipeline) : PState → Ev → PState → Prop where
  | astStart {st : PState} {s : String} (h : s ∈ st.p1_pending) :
      PoolStep pl st (Ev.astStart s)
        { st with p1_pending := st.p1_pending.erase s,
                  p1_running := s :: st.p1_running }
  | astEnd {st : PState} {s : String} (h : s ∈ st.p1_running) :
      PoolStep pl st (Ev.astEnd s)
        { st with p1_running := st.p1_running.erase s,
                  p1_done := s :: st.p1_done }
  | joinBarrier {st : PState} (hp : st.p1_pending = [])
      (hr : st.p1_running = []) (hj : st.joined1 = false) :
      PoolStep pl st Ev.barrier
        { st with joined1 := true, p2_pending := pl.cmds }
  | fmStart {st : PState} {c : String} (hj : st.joined1 = true)
      (h : c ∈ st.p2_pending) :
      PoolStep pl st (Ev.fmStart c)
        { st with p2_pending := st.p2_pending.erase c,
                  p2_running := c :: st.p2_running }
  | fmEnd {st : PState} {c : String} (h : c ∈ st.p2_running) :
      PoolStep pl st (Ev.fmEnd c)
        { st with p2_running := st.p2_running.erase c,
                  p2_done := c :: st.p2_done }

/-- Reachability, with the event history accumulated newest-first. -/
inductive PoolReach (pl : Pipeline) : List Ev → PState → Prop where
  | init : PoolReach pl [] (initPState pl)
  | step {evs : List Ev} {st : PState} {e : Ev} {st2 : PState} :
      PoolReach pl evs st → PoolStep pl st e st2 → PoolReach pl (e :: evs) st2

/-- The end-to-end scenario database of §8: two records for `a.cpp` under
`CC1`, one for `b.cpp` under `CC1`, one for `a.cpp` under `CC2`. -/
def scenario_db : List CompileRecord :=
  [⟨"a.cpp", "CC1"⟩, ⟨"a.cpp", "CC1"⟩, ⟨"b.cpp", "CC1"⟩, ⟨"a.cpp", "CC2"⟩]

/-- Invariant of the load loop relating the state after processing `db` to
the accepted records of `db`. -/
structure LoadInv (db : List CompileRecord) (st : LoadState) : Prop where
  src_nodup : (st.src_2_cmd.map Prod.fst).Nodup
  cmd_nodup : (st.cmd_2_src.map Prod.fst).Nodup
  src_mem : ∀ f, f ∈ st.src_2_cmd.map Prod.fst ↔ f ∈ (acceptedOf db).map CompileRecord.file
  cmd_mem : ∀ c, c ∈ st.cmd_2_src.map Prod.fst ↔ c ∈ (acceptedOf db).map CompileRecord.command
  pair_sum : (st.cmd_2_src.map (fun p => p.2.length)).sum = (acceptedOf db).length
  src_first : ∀ f, src_pattern_match f = true →
    st.src_2_cmd.lookup f = (db.find? (fun r2 => r2.file == f)).map CompileRecord.command

/-! ### Generic helper lemmas -/

theorem strExt {s t : String} (h : s.data = t.data) : s = t := by
  cases s; cases t; exact congrArg String.mk h

theorem rfindCharIdx_eq_neg_one {l : List Char} {c : Char}
    (h : hasChar l c = false) : rfindCharIdx l c = -1 := by
  induction l with
  | nil => rfl
  | cons a t ih =>
    simp only [hasChar, List.any_cons, Bool.or_eq_false_iff] at h
    simp only [rfindCharIdx, ih (by simpa [hasChar] using h.2)]
    simp [h.1]

theorem findCharIdx_nonneg_or {l : List Char} {c : Char} :
    findCharIdx l c = -1 ∨ findCharIdx l c ≥ 0 := by
  induction l with
  | nil => left; rfl
  | cons a t _ =>
    simp only [findCharIdx]
    split
    · right; omega
    · split
      · right; omega
      · left; rfl

theorem findCharIdx_of_not_has {l : List Char} {c : Char}
    (h : hasChar l c = false) : findCharIdx l c = -1 := by
  induction l with
  | nil => rfl
  | cons a t ih =>
    simp only [hasChar, List.any_cons, Bool.or_eq_false_iff] at h
    have ht : hasChar t c = false := by simpa [hasChar] using h.2
    norm_num [findCharIdx, h.1, ih ht]

theorem findCharIdx_of_has {l : List Char} {c : Char}
    (h : hasChar l c = true) : findCharIdx l c ≥ 0 := by
  induction l with
  | nil => simp [hasChar] at h
  | cons a t ih =>
    by_cases hac : (a == c) = true
    · simp [findCharIdx, hac]
    · have hac' : (a == c) = false := by simpa using hac
      simp only [hasChar, List.any_cons, hac', Bool.false_or] at h
      have := ih (by simpa [hasChar] using h)
      simp only [findCharIdx, hac', Bool.false_eq_true, if_false]
      split <;> omega

theorem clear_file_of_not_mem {fs : FileSystem} {f : String} (h : f ∉ fs) :
    clear_file fs f = fs := by
  simp [clear_file, os_remove, h]

theorem not_mem_clear_file (fs : FileSystem) (f : String) :
    f ∉ clear_file fs f := by
  by_cases h : f ∈ fs
  · simp [clear_file, os_remove, h]
  · simp [clear_file, os_remove, h]

theorem not_mem_clear_file_of_not_mem {fs : FileSystem} {g : String}
    (h : g ∉ fs) (f : String) : g ∉ clear_file fs f := by
  by_cases hm : f ∈ fs
  · simp [clear_file, os_remove, hm]
    intro hg
    exact absurd hg h
  · simpa [clear_file, os_remove, hm] using h

/-! ### Claim theorems -/

/-- Claim C10: when the captured output of `clang-cmdline-arch-extractor`
contains no `@` at all, the architecture resolver does not fail: `rfind`
returns `-1`, the slice starts at index `0`, and the whole output is
returned with surrounding whitespace stripped. -/
theorem arch_without_marker (arch_output : String)
    (h : hasChar arch_output.data '@' = false) :
    pyRfind arch_output '@' = -1 ∧ resolve_arch arch_output = pyStrip arch_output := by
  have h1 : pyRfind arch_output '@' = -1 := rfindCharIdx_eq_neg_one h
  refine ⟨h1, ?_⟩
  rw [resolve_arch, h1]
  norm_num

theorem arch_without_marker_witness :
    pyRfind "x86_64 i386" '@' = -1 ∧
      resolve_arch "x86_64 i386" = pyStrip "x86_64 i386" :=
  arch_without_marker "x86_64 i386" (by decide)

/-- Claim C8: OutputReset is idempotent and total on absent files.
`clear_file` on an absent file returns (no exception escapes, state
unchanged); after a reset all three aggregate files are absent, and a second
reset is the identity on the first reset's result. -/
theorem output_reset_idempotent (dir : String) (fs : FileSystem) :
    output_reset dir (output_reset dir fs) = output_reset dir fs
  ∧ (dir ++ "/cfg.txt") ∉ output_reset dir fs
  ∧ (dir ++ "/definedFns.txt") ∉ output_reset dir fs
  ∧ (dir ++ "/externalFns.txt") ∉ output_reset dir fs
  ∧ (∀ (fs2 : FileSystem) (f : String), f ∉ fs2 → clear_file fs2 f = fs2) := by
  have hcfg : (dir ++ "/cfg.txt") ∉ output_reset dir fs := by
    unfold output_reset
    exact not_mem_clear_file_of_not_mem
      (not_mem_clear_file_of_not_mem (not_mem_clear_file _ _) _) _
  have hdef : (dir ++ "/definedFns.txt") ∉ output_reset dir fs := by
    unfold output_reset
    exact not_mem_clear_file_of_not_mem (not_mem_clear_file _ _) _
  have hext : (dir ++ "/externalFns.txt") ∉ output_reset dir fs := by
    unfold output_reset
    exact not_mem_clear_file _ _
  refine ⟨?_, hcfg, hdef, hext, fun fs2 f h => clear_file_of_not_mem h⟩
  conv_lhs => rw [output_reset]
  rw [clear_file_of_not_mem hcfg,
      clear_file_of_not_mem hdef,
      clear_file_of_not_mem hext]

theorem output_reset_idempotent_witness :
    output_reset "d" (output_reset "d" ["d/cfg.txt", "x"]) =
      output_reset "d" ["d/cfg.txt", "x"]
  ∧ clear_file [] "y" = [] :=
  ⟨(output_reset_idempotent "d" ["d/cfg.txt", "x"]).1,
   (output_reset_idempotent "d" ["d/cfg.txt", "x"]).2.2.2.2 [] "y" (by decide)⟩

/-- Claim C2 as stated is false: on the scenario database the loader's
CommandToSources group for `CC1` is `[a.cpp, a.cpp, b.cpp]` — the duplicate
`a.cpp` record is appended again, because the `cmd_2_src` branch of the load
loop has no per-file dedup — not the claimed `[a.cpp, b.cpp]`. -/
theorem scenario_counterexample :
    (load scenario_db).cmd_2_src.lookup "CC1" ≠ some ["a.cpp", "b.cpp"]
  ∧ (load scenario_db).cmd_2_src.lookup "CC1" = some ["a.cpp", "a.cpp", "b.cpp"] := by
  constructor
  · decide
  · decide

/-- Claim C2, amended: on the scenario database, SourceToCommand is
`{a.cpp ↦ CC1, b.cpp ↦ CC1}`, CommandToSources is
`{CC1 ↦ [a.cpp, a.cpp, b.cpp], CC2 ↦ [a.cpp]}` (the repeated `a.cpp`/`CC1`
record contributes a second group membership), Phase 1 submits exactly two
AST tasks, one per distinct source and each using that source's canonical
command (`CC1` for `a.cpp`), and Phase 2 submits exactly two
function-mapper invocations, one per distinct command. -/
theorem end_to_end_scenario :
    (load scenario_db).src_2_cmd = [("a.cpp", "CC1"), ("b.cpp", "CC1")]
  ∧ (load scenario_db).cmd_2_src =
      [("CC1", ["a.cpp", "a.cpp", "b.cpp"]), ("CC2", ["a.cpp"])]
  ∧ phase1_jobs (load scenario_db) =
      [("a.cpp", some "CC1"), ("b.cpp", some "CC1")]
  ∧ (phase1_jobs (load scenario_db)).length = 2
  ∧ phase2_jobs (load scenario_db) =
      [("CC1", some ["a.cpp", "a.cpp", "b.cpp"]), ("CC2", some ["a.cpp"])]
  ∧ (phase2_jobs (load scenario_db)).length = 2 := by
  refine ⟨by decide, by decide, by decide, by decide, by decide, by decide⟩

/-- Claim C9 as stated is false: the file `"a.cpp\n"` does not end in any of
the four suffixes (its last character is a newline), yet `re.match`'s `$`
accepts the position before a single trailing newline, so the record is
taken into the derived relations. -/
theorem trailing_newline_counterexample :
    (src_suffixes.all
      (fun ext => !(pyEndsWith (pyLower "a.cpp\n") ("." ++ ext)))) = true
  ∧ (load [⟨"a.cpp\n", "CC"⟩]).src_2_cmd = [("a.cpp\n", "CC")]
  ∧ (load [⟨"a.cpp\n", "CC"⟩]).cmd_2_src = [("CC", ["a.cpp\n"])]
  ∧ (load [⟨"a.cpp\n", "CC"⟩]).src_order = ["a.cpp\n"]
  ∧ (load [⟨"a.cpp\n", "CC"⟩]).cmd_order = ["CC"] := by
  refine ⟨by decide, by decide, by decide, by decide, by decide⟩

theorem foldl_processStep_filter (db : List CompileRecord) :
    ∀ st : LoadState, db.foldl processStep st = (acceptedOf db).foldl processStep st := by
  induction db with
  | nil => intro st; rfl
  | cons r rest ih =>
    intro st
    by_cases h : src_pattern_match r.file
    · have ha : acceptedOf (r :: rest) = r :: acceptedOf rest := by
        simp [acceptedOf, List.filter_cons, h]
      rw [ha, List.foldl_cons, List.foldl_cons]
      exact ih (processStep st r)
    · have ha : acceptedOf (r :: rest) = acceptedOf rest := by
        simp [acceptedOf, List.filter_cons, h]
      have hst : processStep st r = st := by
        simp [processStep, h]
      rw [ha, List.foldl_cons, hst]
      exact ih st

/-- Claim C9, amended: a record is excluded from all four derived relations
exactly when its `file` fails `src_pattern` — that is, when the file, after
discarding at most one trailing newline, contains a newline or does not end
in `.c`/`.cc`/`.cxx`/`.cpp` case-insensitively.  (The pattern's `$` anchor
also accepts a suffix followed by one trailing newline, so such a file is
NOT excluded.)  Filtering the non-matching records out of the database
leaves the entire load result unchanged. -/
theorem nonmatching_records_excluded (db : List CompileRecord) :
    load db = load (acceptedOf db) :=
  foldl_processStep_filter db ⟨[], [], [], []⟩

theorem gca_foldl_true (ts : List String) :
    ∀ args : List String,
      (ts.foldl gcaStep (true, args)).2 =
        args ++ ts.filter (fun t => !(src_pattern_match t)) := by
  induction ts with
  | nil => intro args; simp
  | cons t ts ih =>
    intro args
    by_cases h : src_pattern_match t
    · have hstep : gcaStep (true, args) t = (true, args) := by
        simp [gcaStep, h]
      rw [List.foldl_cons, hstep, ih args]
      simp [List.filter_cons, h]
    · have hstep : gcaStep (true, args) t = (true, args ++ [t]) := by
        simp [gcaStep, h]
      rw [List.foldl_cons, hstep, ih (args ++ [t])]
      simp [List.filter_cons, h]

theorem gca_foldl_false (ts : List String) :
    ∀ args : List String,
      (ts.foldl gcaStep (false, args)).2 =
        args ++ (drop_through_first_plain ts).filter (fun t => !(src_pattern_match t)) := by
  induction ts with
  | nil => intro args; simp [drop_through_first_plain]
  | cons t ts ih =>
    intro args
    by_cases h : hasChar t.data '='
    · have hf : ¬ (pyFind t '=' = -1) := by
        have := findCharIdx_of_has h
        rw [pyFind]
        omega
      have hstep : gcaStep (false, args) t = (false, args) := by
        simp [gcaStep, hf]
      rw [List.foldl_cons, hstep, ih args]
      simp [drop_through_first_plain, h]
    · have h' : hasChar t.data '=' = false := by simpa using h
      have hf : pyFind t '=' = -1 := findCharIdx_of_not_has h'
      have hstep : gcaStep (false, args) t = (true, args) := by
        simp [gcaStep, hf]
      rw [List.foldl_cons, hstep, gca_foldl_true ts args]
      simp [drop_through_first_plain, h']

/-- Claim C3: `get_command_arguments` drops every token up to and including
the first whitespace-separated token containing no `=`, drops every later
token matching the source-file pattern, and returns the remaining tokens in
order — it coincides with the filter as the spec words it — and on
`"CC -DX=1 foo.cpp -O2"` it returns exactly `["-DX=1", "-O2"]`. -/
theorem command_argument_filter (cmd : String) :
    get_command_arguments cmd = spec_command_arguments cmd
  ∧ get_command_arguments "CC -DX=1 foo.cpp -O2" = ["-DX=1", "-O2"] := by
  constructor
  · rw [get_command_arguments, spec_command_arguments]
    simpa using gca_foldl_false (pySplit cmd) []
  · decide

/-- Claim C7 as stated is false on the code: when the remote service returns
unparsable JSON for a per-project `results` query, `cc-bug-stats.py` catches
the `ValueError`, prints a message and `continue`s with the next project —
the process completes instead of aborting.  Concretely: the `runs` query
succeeds with one project `P`, the `results` query for `P` is unparsable,
and the run still completes. -/
theorem results_unparsable_not_fatal :
    cc_bug_stats "[]" (fun _ => some ["P"]) (fun l => l) (fun _ => none) =
      StatsOutcome.completed
  ∧ (∀ code : Int, StatsOutcome.completed ≠ StatsOutcome.exited code) := by
  refine ⟨by decide, ?_⟩
  intro code h
  exact StatsOutcome.noConfusion h

/-- Claim C7, amended.  Fatal, process-aborting conditions: the compilation
database file missing (uncaught `IOError`) or unparsable as JSON (uncaught
`ValueError`); in the reporting tool, the `runs` connection refused
(`sys.exit(1)`), the `runs` answer unparsable (`sys.exit(1)`), or any
reachable project's results records missing the `bugPathLength` metric
(`sys.exit(2)`).  NOT fatal: an unparsable per-project `results` answer,
which merely skips that project. -/
theorem fatal_conditions :
    (∀ parse, load_buildlog none parse = PyOutcome.uncaught "IOError")
  ∧ (∀ txt parse, parse txt = none →
       load_buildlog (some txt) parse = PyOutcome.uncaught "ValueError")
  ∧ (∀ runsOutput runsJson select resultsJson,
       connection_error runsOutput = true →
       cc_bug_stats runsOutput runsJson select resultsJson = StatsOutcome.exited 1)
  ∧ (∀ runsOutput runsJson select resultsJson,
       connection_error runsOutput = false →
       runsJson runsOutput = none →
       cc_bug_stats runsOutput runsJson select resultsJson = StatsOutcome.exited 1)
  ∧ (∀ (resultsJson : String → Option (List (Option Nat)))
       (names : List String) (p : String) (bpls : List (Option Nat)),
       p ∈ names → resultsJson p = some bpls →
       bpls.any (fun b => b.isNone) = true →
       process_projects resultsJson names = StatsOutcome.exited 2)
  ∧ (∀ resultsJson p rest, resultsJson p = none →
       process_projects resultsJson (p :: rest) = process_projects resultsJson rest) := by
  refine ⟨fun parse => rfl, ?_, ?_, ?_, ?_, ?_⟩
  · intro txt parse h
    simp [load_buildlog, h]
  · intro runsOutput runsJson select resultsJson h
    simp [cc_bug_stats, h]
  · intro runsOutput runsJson select resultsJson hc hr
    simp [cc_bug_stats, hc, hr]
  · intro resultsJson names
    induction names with
    | nil => intro p bpls hmem; simp at hmem
    | cons q rest ih =>
      intro p bpls hmem hres hany
      rcases List.mem_cons.mp hmem with heq | htail
      · subst heq
        simp [process_projects, hres, hany]
      · cases hq : resultsJson q with
        | none => simpa [process_projects, hq] using ih p bpls htail hres hany
        | some l =>
          by_cases hl : l.any (fun b => b.isNone) = true
          · simp [process_projects, hq, hl]
          · simp only [process_projects, hq]
            rw [if_neg (by simpa using hl)]
            exact ih p bpls htail hres hany
  · intro resultsJson p rest h
    simp [process_projects, h]

theorem fatal_conditions_witness :
    cc_bug_stats "error: Connection refused" (fun _ => some [])
      (fun l => l) (fun _ => none) = StatsOutcome.exited 1 :=
  fatal_conditions.2.2.1 "error: Connection refused" (fun _ => some [])
    (fun l => l) (fun _ => none) (by decide)

theorem data_ne_nil_of_ne_empty {s : String} (h : s ≠ "") : s.data ≠ [] :=
  fun hd => h (strExt hd)

theorem pyDrop_data (s : String) (n : Nat) : (pyDrop s n).data = s.data.drop n := rfl

theorem endsWithSlash_append {a b : String} (hb : b.data ≠ []) :
    endsWithSlash (a ++ b) = endsWithSlash b := by
  unfold endsWithSlash
  rw [String.data_append, List.getLast?_append_of_ne_nil _ hb]

theorem data_eq_slash_cons {s : String} (h : startsWithSlash s = true) :
    s.data = '/' :: s.data.drop 1 := by
  unfold startsWithSlash at h
  cases hd : s.data with
  | nil => rw [hd] at h; simp at h
  | cons c t =>
    rw [hd] at h
    have hc : c = '/' := by simpa using h
    subst hc
    rfl

theorem startsWithSlash_append_ast {s : String}
    (h : startsWithSlash s = false) :
    startsWithSlash (s ++ ".ast") = false := by
  unfold startsWithSlash at h ⊢
  rw [String.data_append]
  cases hd : s.data with
  | nil => decide
  | cons c t =>
    rw [hd] at h
    exact h

theorem ast_path_formula (xtu arch rp : String)
    (hx1 : xtu ≠ "") (hx2 : endsWithSlash xtu = false)
    (ha1 : arch ≠ "") (ha2 : endsWithSlash arch = false)
    (_hr1 : startsWithSlash rp = true)
    (hr2 : startsWithSlash (pyDrop rp 1) = false) :
    ast_path xtu arch rp = xtu ++ "/ast/" ++ arch ++ "/" ++ pyDrop rp 1 ++ ".ast" := by
  have hb1 : startsWithSlash (pyDrop rp 1 ++ ".ast") = false :=
    startsWithSlash_append_ast hr2
  have hane : ("/ast/" ++ arch) ≠ "" := by
    intro he
    have hd : ("/ast/" ++ arch).data = [] := by rw [he]
    rw [String.data_append] at hd
    exact absurd (List.append_eq_nil.mp hd).1 (by decide)
  have haslash : endsWithSlash ("/ast/" ++ arch) = false := by
    rw [endsWithSlash_append (data_ne_nil_of_ne_empty ha1)]
    exact ha2
  have hinner : pyJoin ("/ast/" ++ arch) (pyDrop rp 1 ++ ".ast") =
      ("/ast/" ++ arch) ++ "/" ++ (pyDrop rp 1 ++ ".ast") := by
    simp [pyJoin, hb1, hane, haslash]
  have hdropdata : (pyDrop (("/ast/" ++ arch) ++ "/" ++ (pyDrop rp 1 ++ ".ast")) 1).data =
      ('a' :: 's' :: 't' :: '/' :: []) ++ arch.data ++ "/".data ++ ((pyDrop rp 1).data ++ ".ast".data) := by
    rw [pyDrop_data]
    simp only [String.data_append]
    rfl
  have houter : startsWithSlash (pyDrop (("/ast/" ++ arch) ++ "/" ++ (pyDrop rp 1 ++ ".ast")) 1) = false := by
    unfold startsWithSlash
    rw [hdropdata]
    rfl
  rw [ast_path, hinner, pyJoin]
  rw [if_neg (by simp [houter]), if_neg hx1, if_neg (by simp [hx2])]
  apply strExt
  simp only [String.data_append, hdropdata, pyDrop_data, List.append_assoc,
    List.cons_append, List.nil_append]

/-- Claim C4: the AST artifact path is a deterministic function of
`(xtuOutputDir, architecture, realpath(source))`: for well-formed inputs
(output directory nonempty without trailing slash, architecture nonempty
without trailing slash, source realpath absolute and not starting with a
double slash) it equals
`xtuOutputDir ++ "/ast/" ++ architecture ++ "/" ++ <realpath minus leading slash> ++ ".ast"`,
and distinct source realpaths under the same architecture yield distinct
paths.  Purity and determinism are inherent: `ast_path` is a function of
exactly this triple. -/
theorem ast_artifact_path_spec (xtu arch rp rp' : String)
    (hx1 : xtu ≠ "") (hx2 : endsWithSlash xtu = false)
    (ha1 : arch ≠ "") (ha2 : endsWithSlash arch = false)
    (hr1 : startsWithSlash rp = true)
    (hr2 : startsWithSlash (pyDrop rp 1) = false)
    (hr1' : startsWithSlash rp' = true)
    (hr2' : startsWithSlash (pyDrop rp' 1) = false) :
    ast_path xtu arch rp = xtu ++ "/ast/" ++ arch ++ "/" ++ pyDrop rp 1 ++ ".ast"
  ∧ (rp ≠ rp' → ast_path xtu arch rp ≠ ast_path xtu arch rp') := by
  refine ⟨ast_path_formula xtu arch rp hx1 hx2 ha1 ha2 hr1 hr2, ?_⟩
  intro hne heq
  rw [ast_path_formula xtu arch rp hx1 hx2 ha1 ha2 hr1 hr2,
      ast_path_formula xtu arch rp' hx1 hx2 ha1 ha2 hr1' hr2'] at heq
  have hdata := congrArg String.data heq
  simp only [String.data_append, List.append_assoc] at hdata
  have h1 := List.append_cancel_left hdata
  have h2 := List.append_cancel_left h1
  have h3 := List.append_cancel_left h2
  have h4 := List.append_cancel_left h3
  have h5 := List.append_cancel_right h4
  apply hne
  apply strExt
  rw [data_eq_slash_cons hr1, data_eq_slash_cons hr1']
  rw [← pyDrop_data, ← pyDrop_data, h5]

theorem ast_artifact_path_witness :
    ast_path ".xtu" "x86_64" "/home/u/a.cpp" =
      ".xtu" ++ "/ast/" ++ "x86_64" ++ "/" ++ pyDrop "/home/u/a.cpp" 1 ++ ".ast"
  ∧ ("/home/u/a.cpp" ≠ "/home/u/b.cpp" →
      ast_path ".xtu" "x86_64" "/home/u/a.cpp" ≠ ast_path ".xtu" "x86_64" "/home/u/b.cpp") :=
  ast_artifact_path_spec ".xtu" "x86_64" "/home/u/a.cpp" "/home/u/b.cpp"
    (by decide) (by decide) (by decide) (by decide)
    (by decide) (by decide) (by decide) (by decide)


theorem lookup_cons_self {β : Type} (k : String) (v : β) (m : List (String × β)) :
    ((k, v) :: m).lookup k = some v := by
  simp [List.lookup_cons]

theorem lookup_cons_ne {β : Type} {k a : String} (h : k ≠ a) (v : β)
    (m : List (String × β)) : ((a, v) :: m).lookup k = m.lookup k := by
  simp [List.lookup_cons, beq_false_of_ne h]

theorem lookup_isSome_iff {β : Type} (m : List (String × β)) (k : String) :
    (m.lookup k).isSome = true ↔ k ∈ m.map Prod.fst := by
  induction m with
  | nil => simp [List.lookup]
  | cons p m ih =>
    obtain ⟨a, b⟩ := p
    by_cases h : k = a
    · subst h
      simp [lookup_cons_self]
    · rw [lookup_cons_ne h]
      simp only [List.map_cons, List.mem_cons]
      rw [ih]
      simp [h]

theorem lookup_append_left {β : Type} {m : List (String × β)} {k : String} {v : β}
    (h : m.lookup k = some v) (m2 : List (String × β)) :
    (m ++ m2).lookup k = some v := by
  induction m with
  | nil => simp [List.lookup] at h
  | cons p m ih =>
    obtain ⟨a, b⟩ := p
    by_cases hk : k = a
    · subst hk
      rw [lookup_cons_self] at h
      rw [List.cons_append, lookup_cons_self]
      exact h
    · rw [lookup_cons_ne hk] at h
      rw [List.cons_append, lookup_cons_ne hk]
      exact ih h

theorem lookup_append_right {β : Type} {m : List (String × β)} {k : String}
    (h : m.lookup k = none) (m2 : List (String × β)) :
    (m ++ m2).lookup k = m2.lookup k := by
  induction m with
  | nil => rfl
  | cons p m ih =>
    obtain ⟨a, b⟩ := p
    by_cases hk : k = a
    · subst hk
      rw [lookup_cons_self] at h
      cases h
    · rw [lookup_cons_ne hk] at h
      rw [List.cons_append, lookup_cons_ne hk]
      exact ih h

theorem updateAssoc_keys (m : List (String × List String)) (k : String)
    (f : List String → List String) :
    (updateAssoc m k f).map Prod.fst = m.map Prod.fst := by
  induction m with
  | nil => rfl
  | cons p m ih =>
    have hshow : updateAssoc (p :: m) k f =
        (if (p.1 == k) = true then (p.1, f p.2) else p) :: updateAssoc m k f := rfl
    rw [hshow]
    by_cases h : (p.1 == k) = true
    · rw [if_pos h]
      simp only [List.map_cons]
      rw [ih]
    · rw [if_neg h]
      simp only [List.map_cons]
      rw [ih]

theorem updateAssoc_of_not_mem {m : List (String × List String)} {k : String}
    (h : k ∉ m.map Prod.fst) (f : List String → List String) :
    updateAssoc m k f = m := by
  induction m with
  | nil => rfl
  | cons p m ih =>
    simp only [List.map_cons, List.mem_cons] at h
    push_neg at h
    have hshow : updateAssoc (p :: m) k f =
        (if (p.1 == k) = true then (p.1, f p.2) else p) :: updateAssoc m k f := rfl
    rw [hshow, if_neg (by simp [Ne.symm h.1]), ih h.2]

theorem updateAssoc_sum {m : List (String × List String)} {k : String}
    (hnd : (m.map Prod.fst).Nodup) (hmem : k ∈ m.map Prod.fst) (x : String) :
    ((updateAssoc m k (fun l => l ++ [x])).map (fun p => p.2.length)).sum =
      ((m.map (fun p => p.2.length)).sum) + 1 := by
  induction m with
  | nil => simp at hmem
  | cons p m ih =>
    simp only [List.map_cons, List.nodup_cons] at hnd
    have hshow : updateAssoc (p :: m) k (fun l => l ++ [x]) =
        (if (p.1 == k) = true then (p.1, p.2 ++ [x]) else p) ::
          updateAssoc m k (fun l => l ++ [x]) := rfl
    rw [hshow]
    by_cases h : p.1 = k
    · have hknot : k ∉ m.map Prod.fst := by rw [← h]; exact hnd.1
      rw [if_pos (by simp [h]), updateAssoc_of_not_mem hknot]
      simp only [List.map_cons, List.sum_cons, List.length_append,
        List.length_cons, List.length_nil]
      omega
    · have hmem2 : k ∈ m.map Prod.fst := by
        rcases List.mem_cons.mp hmem with he | ht
        · exact absurd he.symm h
        · exact ht
      rw [if_neg (by simp [h])]
      simp only [List.map_cons, List.sum_cons]
      rw [ih hnd.2 hmem2]
      omega

theorem filter_key_length_one {β : Type} {m : List (String × β)} {k : String}
    (hnd : (m.map Prod.fst).Nodup) (hmem : k ∈ m.map Prod.fst) :
    (m.filter (fun p => p.1 == k)).length = 1 := by
  induction m with
  | nil => simp at hmem
  | cons p m ih =>
    simp only [List.map_cons, List.nodup_cons] at hnd
    by_cases h : p.1 = k
    · have h1 : (p.1 == k) = true := by simp [h]
      have hknot : k ∉ m.map Prod.fst := by rw [← h]; exact hnd.1
      have hzero : m.filter (fun p => p.1 == k) = [] := by
        rw [List.filter_eq_nil_iff]
        intro q hq hq1
        exact hknot (by rw [← (by simpa using hq1 : q.1 = k)]; exact List.mem_map_of_mem Prod.fst hq)
      simp [List.filter_cons, h1, hzero]
    · have h1 : (p.1 == k) = false := beq_false_of_ne h
      have hmem2 : k ∈ m.map Prod.fst := by
        rcases List.mem_cons.mp hmem with he | ht
        · exact absurd he.symm h
        · exact ht
      simp only [List.filter_cons, h1, Bool.false_eq_true, if_false]
      exact ih hnd.2 hmem2

theorem processStep_inv {db : List CompileRecord} {st : LoadState} {r : CompileRecord}
    (inv : LoadInv db st) : LoadInv (db ++ [r]) (processStep st r) := by
  by_cases hm : src_pattern_match r.file = true
  case neg =>
    have hacc : acceptedOf (db ++ [r]) = acceptedOf db := by
      simp only [acceptedOf, List.filter_append]
      simp [hm]
    have hps : processStep st r = st := by simp [processStep, hm]
    rw [hps]
    refine ⟨inv.src_nodup, inv.cmd_nodup, ?_, ?_, ?_, ?_⟩
    · intro f; rw [hacc]; exact inv.src_mem f
    · intro c; rw [hacc]; exact inv.cmd_mem c
    · rw [hacc]; exact inv.pair_sum
    · intro f hf
      rw [List.find?_append]
      have hrf : (r.file == f) = false := by
        refine beq_false_of_ne ?_
        intro he
        rw [he] at hm
        exact hm hf
      have h2 : List.find? (fun r2 => r2.file == f) [r] = none := by
        simp [List.find?, hrf]
      rw [h2, Option.or_none]
      exact inv.src_first f hf
  case pos =>
    have hacc : acceptedOf (db ++ [r]) = acceptedOf db ++ [r] := by
      simp only [acceptedOf, List.filter_append]
      simp [hm]
    have hsrc2 : (processStep st r).src_2_cmd =
        if (st.src_2_cmd.lookup r.file).isSome = true then st.src_2_cmd
        else st.src_2_cmd ++ [(r.file, r.command)] := by
      by_cases hs : (st.src_2_cmd.lookup r.file).isSome = true <;>
        by_cases hc : (st.cmd_2_src.lookup r.command).isSome = true <;>
        simp [processStep, hm, hs, hc]
    have hcmd2 : (processStep st r).cmd_2_src =
        if (st.cmd_2_src.lookup r.command).isSome = true then
          updateAssoc st.cmd_2_src r.command (fun l => l ++ [r.file])
        else st.cmd_2_src ++ [(r.command, [r.file])] := by
      by_cases hs : (st.src_2_cmd.lookup r.file).isSome = true <;>
        by_cases hc : (st.cmd_2_src.lookup r.command).isSome = true <;>
        simp [processStep, hm, hs, hc]
    refine ⟨?_, ?_, ?_, ?_, ?_, ?_⟩
    · rw [hsrc2]
      by_cases hs : (st.src_2_cmd.lookup r.file).isSome = true
      · rw [if_pos hs]; exact inv.src_nodup
      · rw [if_neg hs]
        have hnot : r.file ∉ st.src_2_cmd.map Prod.fst := by
          rw [← lookup_isSome_iff]
          simpa using hs
        rw [List.map_append]
        refine List.nodup_append.mpr ⟨inv.src_nodup, List.nodup_singleton _, ?_⟩
        intro a ha hb
        simp only [List.map_cons, List.map_nil, List.mem_singleton] at hb
        exact hnot (hb ▸ ha)
    · rw [hcmd2]
      by_cases hc : (st.cmd_2_src.lookup r.command).isSome = true
      · rw [if_pos hc, updateAssoc_keys]; exact inv.cmd_nodup
      · rw [if_neg hc]
        have hnot : r.command ∉ st.cmd_2_src.map Prod.fst := by
          rw [← lookup_isSome_iff]
          simpa using hc
        rw [List.map_append]
        refine List.nodup_append.mpr ⟨inv.cmd_nodup, List.nodup_singleton _, ?_⟩
        intro a ha hb
        simp only [List.map_cons, List.map_nil, List.mem_singleton] at hb
        exact hnot (hb ▸ ha)
    · intro f
      rw [hsrc2, hacc]
      by_cases hs : (st.src_2_cmd.lookup r.file).isSome = true
      · rw [if_pos hs, List.map_append]
        simp only [List.map_cons, List.map_nil, List.mem_append, List.mem_singleton]
        constructor
        · intro h; left; exact (inv.src_mem f).mp h
        · intro h
          rcases h with h | h
          · exact (inv.src_mem f).mpr h
          · exact h ▸ ((lookup_isSome_iff _ _).mp hs)
      · rw [if_neg hs, List.map_append, List.map_append]
        simp only [List.map_cons, List.map_nil, List.mem_append, List.mem_singleton]
        exact or_congr (inv.src_mem f) Iff.rfl
    · intro c
      rw [hcmd2, hacc]
      by_cases hc : (st.cmd_2_src.lookup r.command).isSome = true
      · rw [if_pos hc, updateAssoc_keys, List.map_append]
        simp only [List.map_cons, List.map_nil, List.mem_append, List.mem_singleton]
        constructor
        · intro h; left; exact (inv.cmd_mem c).mp h
        · intro h
          rcases h with h | h
          · exact (inv.cmd_mem c).mpr h
          · exact h ▸ ((lookup_isSome_iff _ _).mp hc)
      · rw [if_neg hc, List.map_append, List.map_append]
        simp only [List.map_cons, List.map_nil, List.mem_append, List.mem_singleton]
        exact or_congr (inv.cmd_mem c) Iff.rfl
    · rw [hcmd2, hacc, List.length_append]
      by_cases hc : (st.cmd_2_src.lookup r.command).isSome = true
      · rw [if_pos hc,
            updateAssoc_sum inv.cmd_nodup ((lookup_isSome_iff _ _).mp hc) r.file,
            inv.pair_sum]
        simp
      · rw [if_neg hc, List.map_append]
        simp only [List.map_cons, List.map_nil, List.sum_append, List.sum_cons,
          List.sum_nil, List.length_cons, List.length_nil]
        rw [inv.pair_sum]
        omega
    · intro f hf
      rw [hsrc2, List.find?_append]
      by_cases hfe : f = r.file
      · subst hfe
        have hfind1 : List.find? (fun r2 => r2.file == r.file) [r] = some r := by
          simp [List.find?]
        rw [hfind1]
        by_cases hs : (st.src_2_cmd.lookup r.file).isSome = true
        · rw [if_pos hs]
          have hl := inv.src_first r.file hf
          cases ho : List.find? (fun r2 => r2.file == r.file) db with
          | none =>
            rw [ho] at hl
            simp only [Option.map_none'] at hl
            rw [hl] at hs
            simp at hs
          | some r0 =>
            rw [ho] at hl
            rw [hl]
            rfl
        · rw [if_neg hs]
          have hnone : st.src_2_cmd.lookup r.file = none := by
            cases ho3 : st.src_2_cmd.lookup r.file with
            | none => rfl
            | some v => rw [ho3] at hs; simp at hs
          have hl := inv.src_first r.file hf
          rw [hnone] at hl
          have ho : List.find? (fun r2 => r2.file == r.file) db = none := by
            cases ho2 : List.find? (fun r2 => r2.file == r.file) db with
            | none => rfl
            | some r0 => rw [ho2] at hl; simp at hl
          rw [ho, lookup_append_right hnone, lookup_cons_self]
          rfl
      · have hrf : (r.file == f) = false := beq_false_of_ne (fun he => hfe he.symm)
        have hfind1 : List.find? (fun r2 => r2.file == f) [r] = none := by
          simp [List.find?, hrf]
        rw [hfind1, Option.or_none]
        by_cases hs : (st.src_2_cmd.lookup r.file).isSome = true
        · rw [if_pos hs]
          exact inv.src_first f hf
        · rw [if_neg hs]
          cases hl : st.src_2_cmd.lookup f with
          | some v =>
            rw [lookup_append_left hl]
            rw [← hl]
            exact inv.src_first f hf
          | none =>
            rw [lookup_append_right hl, lookup_cons_ne hfe]
            have := inv.src_first f hf
            rw [hl] at this
            exact this

theorem load_inv (db : List CompileRecord) : LoadInv db (load db) := by
  induction db using List.reverseRecOn with
  | nil =>
    refine ⟨List.nodup_nil, List.nodup_nil, ?_, ?_, ?_, ?_⟩ <;>
      simp [load, acceptedOf, List.lookup]
  | append_singleton db r ih =>
    have hl : load (db ++ [r]) = processStep (load db) r := by
      rw [load, load, List.foldl_append]
      rfl
    rw [hl]
    exact processStep_inv ih

/-- Claim C1: for a database whose accepted records number N, referencing M
distinct source paths and K distinct command strings, the loader produces
`src_2_cmd` with exactly M entries, `cmd_2_src` with exactly K entries, and
the (command, source) pairs summed over all `cmd_2_src` groups number N. -/
theorem load_relation_counts (db : List CompileRecord) :
    (load db).src_2_cmd.length = ((acceptedOf db).map CompileRecord.file).dedup.length
  ∧ (load db).cmd_2_src.length = ((acceptedOf db).map CompileRecord.command).dedup.length
  ∧ ((load db).cmd_2_src.map (fun p => p.2.length)).sum = (acceptedOf db).length := by
  obtain ⟨h1, h2, h3, h4, h5, _⟩ := load_inv db
  refine ⟨?_, ?_, h5⟩
  · have hlen : (load db).src_2_cmd.length = ((load db).src_2_cmd.map Prod.fst).length :=
      (List.length_map _ _).symm
    rw [hlen]
    exact ((List.perm_ext_iff_of_nodup h1 (List.nodup_dedup _)).mpr
      (fun a => by rw [List.mem_dedup]; exact h3 a)).length_eq
  · have hlen : (load db).cmd_2_src.length = ((load db).cmd_2_src.map Prod.fst).length :=
      (List.length_map _ _).symm
    rw [hlen]
    exact ((List.perm_ext_iff_of_nodup h2 (List.nodup_dedup _)).mpr
      (fun a => by rw [List.mem_dedup]; exact h4 a)).length_eq

/-- Claim C5: every source file with a recognized extension occurring in the
database has exactly one `src_2_cmd` entry, bound to the command of the
first record mentioning it in input order, and processing a record for an
already-seen file never changes `src_2_cmd`. -/
theorem source_to_command_first_wins (db : List CompileRecord) (f : String)
    (hmatch : src_pattern_match f = true) (hmem : f ∈ db.map CompileRecord.file) :
    ((load db).src_2_cmd.filter (fun p => p.1 == f)).length = 1
  ∧ (load db).src_2_cmd.lookup f =
      (db.find? (fun r => r.file == f)).map CompileRecord.command
  ∧ (∀ (st : LoadState) (r : CompileRecord),
      (st.src_2_cmd.lookup r.file).isSome = true →
      (processStep st r).src_2_cmd = st.src_2_cmd) := by
  obtain ⟨h1, _, h3, _, _, h6⟩ := load_inv db
  have hkey : f ∈ (load db).src_2_cmd.map Prod.fst := by
    rw [h3]
    rcases List.mem_map.mp hmem with ⟨r, hr, hrf⟩
    refine List.mem_map.mpr ⟨r, ?_, hrf⟩
    simp [acceptedOf, List.mem_filter, hr, hrf ▸ hmatch]
  refine ⟨filter_key_length_one h1 hkey, h6 f hmatch, ?_⟩
  intro st r hs
  by_cases hm : src_pattern_match r.file = true
  · by_cases hc : (st.cmd_2_src.lookup r.command).isSome = true <;>
      simp [processStep, hm, hs, hc]
  · simp [processStep, hm]

theorem source_to_command_first_wins_witness :
    ((load [⟨"a.c", "C1"⟩, ⟨"a.c", "C2"⟩]).src_2_cmd.filter
        (fun p => p.1 == "a.c")).length = 1
  ∧ (load [⟨"a.c", "C1"⟩, ⟨"a.c", "C2"⟩]).src_2_cmd.lookup "a.c" =
      (([⟨"a.c", "C1"⟩, ⟨"a.c", "C2"⟩] : List CompileRecord).find?
        (fun r => r.file == "a.c")).map CompileRecord.command
  ∧ (∀ (st : LoadState) (r : CompileRecord),
      (st.src_2_cmd.lookup r.file).isSome = true →
      (processStep st r).src_2_cmd = st.src_2_cmd) :=
  source_to_command_first_wins [⟨"a.c", "C1"⟩, ⟨"a.c", "C2"⟩] "a.c"
    (by decide) (by decide)

theorem pool_p1_partition {pl : Pipeline} {evs : List Ev} {st : PState}
    (h : PoolReach pl evs st) :
    ∀ s ∈ pl.srcs, s ∈ st.p1_pending ∨ s ∈ st.p1_running ∨ Ev.astEnd s ∈ evs := by
  induction h with
  | init => intro s hs; left; exact hs
  | @step evs st e st2 _ hstep ih =>
    intro s hs
    cases hstep with
    | @astStart s0 hmem =>
      rcases ih s hs with hp | hr | he
      · by_cases heq : s = s0
        · right; left
          simp [heq]
        · left
          simpa using (List.mem_erase_of_ne heq).mpr hp
      · right; left
        simp [hr]
      · right; right
        exact List.mem_cons_of_mem _ he
    | @astEnd s0 hmem =>
      rcases ih s hs with hp | hr | he
      · left; exact hp
      · by_cases heq : s = s0
        · right; right
          simp [heq]
        · right; left
          simpa using (List.mem_erase_of_ne heq).mpr hr
      · right; right
        exact List.mem_cons_of_mem _ he
    | joinBarrier hp hr hj =>
      rcases ih s hs with hp2 | hr2 | he
      · left; exact hp2
      · right; left; exact hr2
      · right; right; exact List.mem_cons_of_mem _ he
    | @fmStart c0 hj0 hmem =>
      rcases ih s hs with hp2 | hr2 | he
      · left; exact hp2
      · right; left; exact hr2
      · right; right; exact List.mem_cons_of_mem _ he
    | @fmEnd c0 hmem =>
      rcases ih s hs with hp2 | hr2 | he
      · left; exact hp2
      · right; left; exact hr2
      · right; right; exact List.mem_cons_of_mem _ he

theorem pool_joined_drained {pl : Pipeline} {evs : List Ev} {st : PState}
    (h : PoolReach pl evs st) :
    st.joined1 = true → st.p1_pending = [] ∧ st.p1_running = [] := by
  induction h with
  | init => intro hj; cases hj
  | @step evs st e st2 _ hstep ih =>
    intro hj
    cases hstep with
    | @astStart s0 hmem =>
      have := ih hj
      rw [this.1] at hmem
      cases hmem
    | @astEnd s0 hmem =>
      have := ih hj
      rw [this.2] at hmem
      cases hmem
    | joinBarrier hp hr hj0 => exact ⟨hp, hr⟩
    | @fmStart c0 hj0 hmem => exact ih hj
    | @fmEnd c0 hmem => exact ih hj

/-- Claim C6: in every run of the pipeline, no Phase 2 unit of work starts
before every submitted Phase 1 unit has finished.  Event histories are
newest-first, so for every `fmStart` event in a reachable history, the
`astEnd` event of every submitted source lies strictly earlier (in the
history suffix `l2` beyond it): the `close`/`join` barrier is total. -/
theorem phase_barrier (pl : Pipeline) (evs l1 l2 : List Ev) (c : String)
    (st : PState) (hreach : PoolReach pl evs st)
    (hsplit : evs = l1 ++ Ev.fmStart c :: l2) :
    ∀ s ∈ pl.srcs, Ev.astEnd s ∈ l2 := by
  induction hreach generalizing l1 l2 with
  | init => cases l1 <;> simp at hsplit
  | @step evs st e st2 hr hstep ih =>
    cases l1 with
    | nil =>
      simp only [List.nil_append, List.cons.injEq] at hsplit
      obtain ⟨he, hl⟩ := hsplit
      subst he
      subst hl
      cases hstep with
      | @fmStart c hj hmem =>
        intro s hs
        obtain ⟨hp, hrun⟩ := pool_joined_drained hr hj
        rcases pool_p1_partition hr s hs with h | h | h
        · rw [hp] at h; cases h
        · rw [hrun] at h; cases h
        · exact h
    | cons e0 l1t =>
      simp only [List.cons_append, List.cons.injEq] at hsplit
      exact ih l1t l2 hsplit.2

theorem phase_barrier_witness :
    Ev.astEnd "s.c" ∈ [Ev.barrier, Ev.astEnd "s.c", Ev.astStart "s.c"] := by
  have h0 : PoolReach ⟨["s.c"], ["CC"]⟩ [] (initPState ⟨["s.c"], ["CC"]⟩) :=
    PoolReach.init
  have h1 := PoolReach.step h0 (PoolStep.astStart (s := "s.c") (by decide))
  have h2 := PoolReach.step h1 (PoolStep.astEnd (s := "s.c") (by decide))
  have h3 := PoolReach.step h2
    (PoolStep.joinBarrier (by decide) (by decide) (by decide))
  have h4 := PoolReach.step h3
    (PoolStep.fmStart (c := "CC") (by decide) (by decide))
  exact phase_barrier _ _ [] _ "CC" _ h4 rfl "s.c" (by decide)
